import Mathlib

/-!
Verification of the retrieval-evaluation metrics module (`metrics.py`) of the
freesound sound-similarity repository.

The label dataframe is modelled as a list of rows, each holding an integer item
identifier and its comma-joined labels string (a list of characters).  The
results store is a list of pairs of a query identifier and its ordered result
list.  All numeric results are exact rationals; a Python exception (failed
assertion, lookup failure, division by zero, missing required argument) is
modelled as `none`.
-/

set_option maxHeartbeats 1000000

namespace Metrics

/-- A row of the label dataframe: item identifier `fname` and the comma-joined
labels string of the `labels` column. -/
structure Row where
  fname : Int
  labels : List Char

/-- One retrieved result record, carrying the retrieved item's identifier. -/
structure Res where
  result_fname : Int

/-- `get_labels(fname, df)`: looks up the first row whose `fname` matches and
splits its labels string on commas; `none` models the IndexError raised when the
identifier is absent from the dataframe. -/
def get_labels (fname : Int) (df : List Row) : Option (List (List Char)) :=
  (df.find? (fun r => r.fname == fname)).map (fun r => r.labels.splitOn ',')

/-- Boolean test that `pat` occurs contiguously inside `s`, used to model the
unanchored alternative of the regular expression search. -/
def listInfixOf (pat s : List Char) : Bool :=
  s.tails.any (fun t => pat.isPrefixOf t)

/-- The compiled pattern of `find_indices_containing_label`, applied to one labels
string: the four regex alternatives match the label at the start of the string
followed by a comma, between two commas anywhere, after a comma at the end of the
string, or as the entire string. -/
def labelPattern (label s : List Char) : Bool :=
  (label ++ [',']).isPrefixOf s || listInfixOf ([','] ++ label ++ [',']) s ||
    ([','] ++ label).isSuffixOf s || s == label

/-- `find_indices_containing_label(label, df)`: the boolean series
`df["labels"].str.contains(pattern)`, one entry per row of the dataframe. -/
def find_indices_containing_label (label : List Char) (df : List Row) : List Bool :=
  df.map (fun r => labelPattern label r.labels)

/-- Relevance of a single retrieved result: with no `query_label`, relevant iff the
query's label set and the result's label set intersect; with a `query_label`,
relevant iff the result's label set contains it. -/
def relevanceOf (query_item_labels : List (List Char)) (query_label : Option (List Char))
    (ref_item_labels : List (List Char)) : Int :=
  match query_label with
  | none => if ∃ l ∈ query_item_labels, l ∈ ref_item_labels then 1 else 0
  | some ql => if ql ∈ ref_item_labels then 1 else 0

/-- The loop of `evaluate_relevance`: one relevance value per retrieved result, in
order; `none` models the lookup failure when a result identifier has no row. -/
def evalRelLoop (query_item_labels : List (List Char)) (query_label : Option (List Char))
    (result : List Res) (df : List Row) : Option (List Int) :=
  match result with
  | [] => some []
  | r :: rest =>
    match get_labels r.result_fname df with
    | none => none
    | some refLabels =>
      (evalRelLoop query_item_labels query_label rest df).map
        (fun tl => relevanceOf query_item_labels query_label refLabels :: tl)

/-- `evaluate_relevance(query_fname, result, df, query_label=None)`. -/
def evaluate_relevance (query_fname : Int) (result : List Res) (df : List Row)
    (query_label : Option (List Char) := none) : Option (List Int) :=
  match get_labels query_fname df with
  | none => none
  | some queryLabels => evalRelLoop queryLabels query_label result df

/-- `precision_at_k(relevance, k)`: asserts every relevance value is 0 or 1, then
returns `sum(relevance[:k+1]) / (k+1)` as an exact rational. -/
def precision_at_k (relevance : List Int) (k : Nat) : Option ℚ :=
  if ∀ x ∈ relevance, x = 0 ∨ x = 1 then
    some (((relevance.take (k + 1)).sum : ℚ) / ((k : ℚ) + 1))
  else none

/-- The value of `precision_at_k` once its assertion is known to pass. -/
def precisionVal (relevance : List Int) (k : Nat) : ℚ :=
  ((relevance.take (k + 1)).sum : ℚ) / ((k : ℚ) + 1)

/-- The comprehension
`sum([rel_k * precision_at_k(relevance, k) for k, rel_k in enumerate(relevance)])`
shared by `average_precision` and `average_precision_at_n`. -/
def apTotal (relevance : List Int) : ℚ :=
  ((List.range relevance.length).map
    (fun k => ((relevance.getD k 0 : Int) : ℚ) * precisionVal relevance k)).sum

/-- Positional reformulation of `apTotal` used in the monotonicity proof: `s` is
the sum and `p` the count of the entries already consumed. -/
def apAux (l : List Int) (s : Int) (p : Nat) : ℚ :=
  match l with
  | [] => 0
  | r :: rest => (r : ℚ) * (((s + r : Int) : ℚ) / ((p : ℚ) + 1)) + apAux rest (s + r) (p + 1)

/-- The value described by the specification: the sum, over exactly the positions
holding a 1, of the `precision_at_k` values at those positions. -/
def claimAPSum (relevance : List Int) : ℚ :=
  (((List.range relevance.length).filter (fun k => relevance.getD k 0 == 1)).map
    (fun k => precisionVal relevance k)).sum

/-- `average_precision(relevance, n_relevant)`: asserts `sum(relevance) ==
n_relevant`; returns 0 when `n_relevant == 0`; otherwise evaluates
`precision_at_k` at every position (whose own assertion requires all values to be
0 or 1) and divides the accumulated total by `n_relevant`. -/
def average_precision (relevance : List Int) (n_relevant : Int) : Option ℚ :=
  if relevance.sum = n_relevant then
    if n_relevant = 0 then some 0
    else if ∀ x ∈ relevance, x = 0 ∨ x = 1 then
      some (apTotal relevance / (n_relevant : ℚ))
    else none
  else none

/-- `average_precision_at_n(relevance, n, n_relevant=None)`: asserts `n > 0` and
`len(relevance) == n`; returns 0 when no relevant item appears in the list;
otherwise accumulates the `precision_at_k` values (all values must be 0 or 1) and
divides by `min(n, n_relevant)` when `n_relevant` is supplied and by `n`
otherwise.  `none` models the failed assertions and the ZeroDivisionError raised
when that normalization is 0. -/
def average_precision_at_n (relevance : List Int) (n : Nat)
    (n_relevant : Option Int := none) : Option ℚ :=
  if 0 < n ∧ relevance.length = n then
    if relevance.sum = 0 then some 0
    else if ∀ x ∈ relevance, x = 0 ∨ x = 1 then
      let normalization : Int :=
        match n_relevant with
        | some m => min (n : Int) m
        | none => (n : Int)
      if normalization = 0 then none
      else some (apTotal relevance / (normalization : ℚ))
    else none
  else none

/-- The call `average_precision(relevance)` inside `calculate_micro_map_at_k`
omits the required positional argument `n_relevant`, which has no default, so in
Python the call raises TypeError whenever it is reached; `none` models that. -/
def average_precision_missing_argument (_relevance : List Int) : Option ℚ :=
  none

/-- The loop of `calculate_micro_map_at_k`: for each query, relevance of the
result list truncated at `k`, then the faulty `average_precision(relevance)`
call. -/
def microAPLoop (results_dict : List (Int × List Res)) (df : List Row) (k : Nat) :
    Option (List ℚ) :=
  match results_dict with
  | [] => some []
  | (query_fname, result) :: rest =>
    match evaluate_relevance query_fname (result.take k) df none with
    | none => none
    | some relevance =>
      match average_precision_missing_argument relevance with
      | none => none
      | some ap => (microAPLoop rest df k).map (fun aps => ap :: aps)

/-- `calculate_micro_map_at_k(results_dict, df, k)`: mean of the per-query values
collected by the loop (`none` also models the ZeroDivisionError on an empty
store). -/
def calculate_micro_map_at_k (results_dict : List (Int × List Res)) (df : List Row)
    (k : Nat) : Option ℚ :=
  match microAPLoop results_dict df k with
  | none => none
  | some aps =>
    if aps.length = 0 then none
    else some (aps.sum / (aps.length : ℚ))

/-- An entry of the `label_maps` table: label, its map@k value, its occurrence
count. -/
structure LabelMapEntry where
  label : List Char
  map_at_k : ℚ
  occurrence : Nat

/-- `calculate_macro_map(label_maps)`: the mean of the map@k column; `none`
models the ZeroDivisionError on an empty table. -/
def calculate_macro_map (label_maps : List LabelMapEntry) : Option ℚ :=
  if label_maps.length = 0 then none
  else some ((label_maps.map (fun e => e.map_at_k)).sum / (label_maps.length : ℚ))

/-- The scan of `R1`, carrying the current zero-based index. -/
def R1Loop (query_labels : List (List Char)) (result : List Res) (df : List Row)
    (i : Nat) : Option (Option Nat) :=
  match result with
  | [] => some none
  | r :: rest =>
    match get_labels r.result_fname df with
    | none => none
    | some refLabels =>
      if ∃ l ∈ query_labels, l ∈ refLabels then some (some i)
      else R1Loop query_labels rest df (i + 1)

/-- `R1(query_fname, result, df)`: the zero-based rank of the first result sharing
a label with the query; `some none` is Python's `None` return (the no-match
sentinel) and the outer `none` models a lookup failure. -/
def R1 (query_fname : Int) (result : List Res) (df : List Row) : Option (Option Nat) :=
  match get_labels query_fname df with
  | none => none
  | some queryLabels => R1Loop queryLabels result df 0

/-- The list comprehension of `calculate_MR1` over the results store; `none`
models a lookup failure inside any `R1` call. -/
def r1Loop (results_dict : List (Int × List Res)) (df : List Row) :
    Option (List (Option Nat)) :=
  match results_dict with
  | [] => some []
  | (query_fname, result) :: rest =>
    match R1 query_fname result df with
    | none => none
    | some r1 => (r1Loop rest df).map (fun rs => r1 :: rs)

/-- The filter `[x for x in r1s if x]` of `calculate_MR1`: Python truthiness keeps
a rank only when it is neither `None` nor `0`, since both are falsy. -/
def truthyRanks (r1s : List (Option Nat)) : List Nat :=
  r1s.filterMap (fun x =>
    match x with
    | none => none
    | some k => if k = 0 then none else some k)

/-- `calculate_MR1(results_dict, df)`: `R1` per query, the truthiness filter, then
sum divided by count (`none` also models the ZeroDivisionError when every entry
was filtered out). -/
def calculate_MR1 (results_dict : List (Int × List Res)) (df : List Row) : Option ℚ :=
  match r1Loop results_dict df with
  | none => none
  | some r1s =>
    let kept := truthyRanks r1s
    if kept.length = 0 then none
    else some ((kept.map (fun x => (x : ℚ))).sum / (kept.length : ℚ))

/-! ### Helper lemmas -/

lemma getD_zero_or_one {relevance : List Int}
    (hbin : ∀ x ∈ relevance, x = 0 ∨ x = 1) (k : Nat) :
    relevance.getD k 0 = 0 ∨ relevance.getD k 0 = 1 := by
  rcases Nat.lt_or_ge k relevance.length with h | h
  · rw [List.getD_eq_getElem _ _ h]
    exact hbin _ (List.getElem_mem h)
  · left
    exact List.getD_eq_default _ _ h

lemma indicator_sum_eq_filter_sum (relevance : List Int)
    (hbin : ∀ x ∈ relevance, x = 0 ∨ x = 1) :
    ∀ ks : List Nat,
      (ks.map (fun k => ((relevance.getD k 0 : Int) : ℚ) * precisionVal relevance k)).sum
        = ((ks.filter (fun k => relevance.getD k 0 == 1)).map
            (fun k => precisionVal relevance k)).sum
  | [] => by simp
  | k :: ks => by
    have ih := indicator_sum_eq_filter_sum relevance hbin ks
    rw [List.map_cons, List.sum_cons, List.filter_cons]
    rcases getD_zero_or_one hbin k with h | h
    · rw [h, if_neg (by decide), ih]
      norm_num
    · rw [h, if_pos (by decide), List.map_cons, List.sum_cons, ih]
      norm_num

lemma apTotal_eq_claimAPSum (relevance : List Int)
    (hbin : ∀ x ∈ relevance, x = 0 ∨ x = 1) :
    apTotal relevance = claimAPSum relevance :=
  indicator_sum_eq_filter_sum relevance hbin _

lemma binary_sum_nonneg {l : List Int} (hbin : ∀ x ∈ l, x = 0 ∨ x = 1) :
    0 ≤ l.sum := by
  induction l with
  | nil => simp
  | cons a l ih =>
    have ha := hbin a (List.mem_cons_self a l)
    have h := ih (fun x hx => hbin x (List.mem_cons_of_mem a hx))
    rw [List.sum_cons]
    rcases ha with h0 | h1 <;> omega

lemma binary_sum_pos {l : List Int} (hbin : ∀ x ∈ l, x = 0 ∨ x = 1)
    (h1 : (1 : Int) ∈ l) : 0 < l.sum := by
  induction l with
  | nil => simp at h1
  | cons a l ih =>
    have htail := binary_sum_nonneg (fun x hx => hbin x (List.mem_cons_of_mem a hx))
    have ha := hbin a (List.mem_cons_self a l)
    rw [List.sum_cons]
    rcases List.mem_cons.mp h1 with heq | hmem
    · omega
    · have := ih (fun x hx => hbin x (List.mem_cons_of_mem a hx)) hmem
      rcases ha with h0 | h0 <;> omega

lemma binary_sum_eq_zero {l : List Int} (hbin : ∀ x ∈ l, x = 0 ∨ x = 1)
    (h1 : (1 : Int) ∉ l) : l.sum = 0 := by
  induction l with
  | nil => simp
  | cons a l ih =>
    rw [List.sum_cons]
    have ha := hbin a (List.mem_cons_self a l)
    have ha0 : a = 0 := by
      rcases ha with h | h
      · exact h
      · exact absurd (by rw [← h] at h1 ⊢; exact List.mem_cons_self a l) (fun hmem => h1 hmem)
    rw [ha0, ih (fun x hx => hbin x (List.mem_cons_of_mem a hx))
      (fun hmem => h1 (List.mem_cons_of_mem a hmem)), zero_add]

/-! ### Claim theorems -/

/-- C9: `precision_at_k` requires every relevance value to be 0 or 1 and fails
when any other value is present; under the precondition it returns the sum of
`relevance[0..k]` inclusive divided by `k + 1`. -/
theorem precision_at_k_spec (relevance : List Int) (k : Nat) :
    ((∃ x ∈ relevance, ¬(x = 0 ∨ x = 1)) → precision_at_k relevance k = none) ∧
    ((∀ x ∈ relevance, x = 0 ∨ x = 1) →
      precision_at_k relevance k =
        some (((relevance.take (k + 1)).sum : ℚ) / ((k : ℚ) + 1))) := by
  constructor
  · rintro ⟨x, hx, hbad⟩
    rw [precision_at_k, if_neg]
    intro hall
    exact hbad (hall x hx)
  · intro hall
    rw [precision_at_k, if_pos hall]

/-- C9 witness: `precision_at_k([1,0,1], 1) = 1/2`. -/
theorem precision_at_k_spec_witness :
    precision_at_k [1, 0, 1] 1 = some (1 / 2) := by
  have h := (precision_at_k_spec [1, 0, 1] 1).2 (by decide)
  rw [h]
  norm_num

/-- C10: when `n_relevant = 0` is supplied and the 0/1 list contains a 1, the
normalization `min(n, n_relevant)` is 0 and the unguarded division makes the call
return no value at all. -/
theorem average_precision_at_n_zero_nrel (relevance : List Int) (n : Nat)
    (hbin : ∀ x ∈ relevance, x = 0 ∨ x = 1) (hlen : relevance.length = n)
    (hone : (1 : Int) ∈ relevance) :
    average_precision_at_n relevance n (some 0) = none := by
  have hn : 0 < n := by
    rcases relevance with _ | ⟨a, l⟩
    · simp at hone
    · simp at hlen
      omega
  have hsum : relevance.sum ≠ 0 := by
    have := binary_sum_pos hbin hone
    omega
  have hmin : min (n : Int) 0 = 0 := min_eq_right (by positivity)
  rw [average_precision_at_n, if_pos ⟨hn, hlen⟩, if_neg hsum, if_pos hbin]
  simp [hmin]

/-- C10 witness: `average_precision_at_n([1], 1, 0)` returns no value. -/
theorem average_precision_at_n_zero_nrel_witness :
    average_precision_at_n [1] 1 (some 0) = none :=
  average_precision_at_n_zero_nrel [1] 1 (by decide) rfl (by decide)

/-- C5: `average_precision` requires `sum(relevance) == n_relevant` and fails
otherwise; it returns 0 whenever `n_relevant = 0` (in particular on `([], 0)`),
and otherwise returns the sum of the `precision_at_k` values over the positions
holding a 1, divided by `n_relevant`. -/
theorem average_precision_spec (relevance : List Int) (n_relevant : Int) :
    (relevance.sum ≠ n_relevant → average_precision relevance n_relevant = none) ∧
    (relevance.sum = n_relevant → n_relevant = 0 →
      average_precision relevance n_relevant = some 0) ∧
    average_precision [] 0 = some 0 ∧
    ((∀ x ∈ relevance, x = 0 ∨ x = 1) → relevance.sum = n_relevant → n_relevant ≠ 0 →
      average_precision relevance n_relevant =
        some (claimAPSum relevance / (n_relevant : ℚ))) := by
  refine ⟨?_, ?_, by decide, ?_⟩
  · intro h
    rw [average_precision, if_neg h]
  · intro hs h0
    rw [average_precision, if_pos hs, if_pos h0]
  · intro hbin hs h0
    rw [average_precision, if_pos hs, if_neg h0, if_pos hbin,
      apTotal_eq_claimAPSum relevance hbin]

/-- C5 witness: `average_precision([1,0], 1) = 1`. -/
theorem average_precision_spec_witness :
    average_precision [1, 0] 1 = some 1 := by
  have h := (average_precision_spec [1, 0] 1).2.2.2 (by decide) (by decide) (by decide)
  rw [h]
  norm_num [claimAPSum, precisionVal, List.range_succ]

/-- C4 counterexample: for the 0/1 list `[1]` of length `n = 1 > 0` with supplied
`n_relevant = 0`, the claim promises a returned value (the accumulated sum divided
by `min(n, n_relevant)`), but the division is unguarded and the call returns no
value at all. -/
theorem average_precision_at_n_claim_cex :
    average_precision_at_n [1] 1 (some 0) = none := by decide

/-- C4 (amended): for every 0/1 list of length `n > 0`, `average_precision_at_n`
returns 0 when the list holds no 1; otherwise it returns the sum of the
`precision_at_k` values over the positions holding a 1, divided by
`min(n, n_relevant)` when `n_relevant` is supplied and that minimum is nonzero
(when the minimum is 0 the division is unguarded and no value is returned), and
divided by `n` when `n_relevant` is absent; in particular the two embedded test
vectors evaluate to 2/3 and 3/5. -/
theorem average_precision_at_n_spec (relevance : List Int) (n : Nat)
    (n_relevant : Option Int)
    (hbin : ∀ x ∈ relevance, x = 0 ∨ x = 1) (hlen : relevance.length = n)
    (hn : 0 < n) :
    ((1 : Int) ∉ relevance → average_precision_at_n relevance n n_relevant = some 0) ∧
    ((1 : Int) ∈ relevance → ∀ m : Int, n_relevant = some m → min (n : Int) m ≠ 0 →
      average_precision_at_n relevance n n_relevant =
        some (claimAPSum relevance / ((min (n : Int) m : Int) : ℚ))) ∧
    ((1 : Int) ∈ relevance → n_relevant = none →
      average_precision_at_n relevance n n_relevant =
        some (claimAPSum relevance / (n : ℚ))) ∧
    average_precision_at_n [1, 0, 0, 1, 0, 1] 6 (some 3) = some (2 / 3) ∧
    average_precision_at_n [1, 1, 1, 0, 0] 5 (some 8) = some (3 / 5) := by
  refine ⟨?_, ?_, ?_, ?_, ?_⟩
  · intro hno
    rw [average_precision_at_n.eq_def, if_pos ⟨hn, hlen⟩,
      if_pos (binary_sum_eq_zero hbin hno)]
  · intro hone m hm hmin
    subst hm
    have hsum : relevance.sum ≠ 0 := by
      have := binary_sum_pos hbin hone
      omega
    rw [average_precision_at_n.eq_def, if_pos ⟨hn, hlen⟩, if_neg hsum, if_pos hbin,
      apTotal_eq_claimAPSum relevance hbin]
    simp only []
    rw [if_neg hmin]
  · intro hone hm
    subst hm
    have hsum : relevance.sum ≠ 0 := by
      have := binary_sum_pos hbin hone
      omega
    have hn' : (n : Int) ≠ 0 := by omega
    rw [average_precision_at_n.eq_def, if_pos ⟨hn, hlen⟩, if_neg hsum, if_pos hbin,
      apTotal_eq_claimAPSum relevance hbin]
    simp only []
    rw [if_neg hn']
    norm_cast
  · norm_num [average_precision_at_n, apTotal, precisionVal, List.range_succ]
  · norm_num [average_precision_at_n, apTotal, precisionVal, List.range_succ]

/-- C4 witness: `average_precision_at_n([1,0], 2) = 1/2` with `n_relevant` absent. -/
theorem average_precision_at_n_spec_witness :
    average_precision_at_n [1, 0] 2 none = some (1 / 2) := by
  have h := (average_precision_at_n_spec [1, 0] 2 none (by decide) rfl (by decide)).2.2.1
    (by decide) rfl
  rw [h]
  norm_num [claimAPSum, precisionVal, List.range_succ]

/-- C7: `calculate_macro_map` is the unweighted arithmetic mean of the map@k
values: it depends only on the map@k column (not on the occurrence counts), two
labels with arbitrary occurrence counts and equal map@k yield exactly that shared
value, and on every non-empty table it returns the arithmetic mean. -/
theorem calculate_macro_map_spec :
    (∀ lms lms' : List LabelMapEntry,
      lms.map (fun e => e.map_at_k) = lms'.map (fun e => e.map_at_k) →
      calculate_macro_map lms = calculate_macro_map lms') ∧
    (∀ (l1 l2 : List Char) (m : ℚ) (o1 o2 : Nat),
      calculate_macro_map [⟨l1, m, o1⟩, ⟨l2, m, o2⟩] = some m) ∧
    (∀ lms : List LabelMapEntry, lms ≠ [] →
      calculate_macro_map lms =
        some ((lms.map (fun e => e.map_at_k)).sum / (lms.length : ℚ))) := by
  refine ⟨?_, ?_, ?_⟩
  · intro lms lms' h
    have hlen : lms.length = lms'.length := by
      have := congrArg List.length h
      simpa using this
    rw [calculate_macro_map, calculate_macro_map, h, hlen]
  · intro l1 l2 m o1 o2
    rw [calculate_macro_map, if_neg (by norm_num)]
    norm_num
  · intro lms h
    rw [calculate_macro_map, if_neg]
    simpa using h

/-- C7 witness: two labels with occurrence counts 1000 and 2 and equal map@k 1/2
give macro map 1/2. -/
theorem calculate_macro_map_spec_witness :
    calculate_macro_map [⟨['a'], 1 / 2, 1000⟩, ⟨['b'], 1 / 2, 2⟩] = some (1 / 2) :=
  calculate_macro_map_spec.2.1 ['a'] ['b'] (1 / 2) 1000 2

lemma relevanceOf_zero_or_one (qls : List (List Char)) (ql : Option (List Char))
    (rls : List (List Char)) :
    relevanceOf qls ql rls = 0 ∨ relevanceOf qls ql rls = 1 := by
  rcases ql with _ | ql <;> simp only [relevanceOf] <;> split_ifs <;> simp

lemma relevanceOf_eq_one_iff (qls : List (List Char)) (ql : Option (List Char))
    (rls : List (List Char)) :
    relevanceOf qls ql rls = 1 ↔
      (match ql with
       | none => ∃ l ∈ qls, l ∈ rls
       | some ql0 => ql0 ∈ rls) := by
  rcases ql with _ | ql <;> simp only [relevanceOf] <;> split_ifs with h <;> simp [h]

lemma evalRelLoop_spec (qls : List (List Char)) (ql : Option (List Char))
    (result : List Res) (df : List Row)
    (hr : ∀ r ∈ result, (get_labels r.result_fname df).isSome) :
    ∃ rel, evalRelLoop qls ql result df = some rel ∧
      rel.length = result.length ∧
      ∀ i, i < result.length →
        ∀ rls, get_labels ((result.getD i ⟨0⟩).result_fname) df = some rls →
          rel.getD i 0 = relevanceOf qls ql rls := by
  induction result with
  | nil =>
    refine ⟨[], rfl, rfl, ?_⟩
    intro i hi
    simp at hi
  | cons r rest ih =>
    have hr0 := hr r (List.mem_cons_self r rest)
    obtain ⟨rls0, hrls0⟩ := Option.isSome_iff_exists.mp hr0
    obtain ⟨tl, htl, hlen, hspec⟩ := ih (fun x hx => hr x (List.mem_cons_of_mem r hx))
    refine ⟨relevanceOf qls ql rls0 :: tl, ?_, by simp [hlen], ?_⟩
    · rw [evalRelLoop, hrls0, htl]
      rfl
    · intro i hi rls hrls
      cases i with
      | zero =>
        simp only [List.getD_cons_zero] at hrls ⊢
        rw [hrls0] at hrls
        injection hrls with h
        rw [← h]
      | succ j =>
        simp only [List.getD_cons_succ] at hrls ⊢
        exact hspec j (by simpa using hi) rls hrls

/-- C3: when the query and every result identifier resolve in the label store,
`evaluate_relevance` returns a 0/1 sequence of the same length and order as the
result list; with `query_label` absent, position `i` is 1 iff the query's and
result `i`'s label sets have non-empty intersection; with `query_label` present,
position `i` is 1 iff `query_label` belongs to result `i`'s label set, the
query's own labels playing no role. -/
theorem evaluate_relevance_spec (query_fname : Int) (result : List Res) (df : List Row)
    (query_label : Option (List Char)) (qls : List (List Char))
    (hq : get_labels query_fname df = some qls)
    (hr : ∀ r ∈ result, (get_labels r.result_fname df).isSome) :
    ∃ rel, evaluate_relevance query_fname result df query_label = some rel ∧
      rel.length = result.length ∧
      ∀ i, i < result.length →
        (rel.getD i 0 = 0 ∨ rel.getD i 0 = 1) ∧
        ∀ rls, get_labels ((result.getD i ⟨0⟩).result_fname) df = some rls →
          (rel.getD i 0 = 1 ↔
            (match query_label with
             | none => ∃ l ∈ qls, l ∈ rls
             | some ql0 => ql0 ∈ rls)) := by
  obtain ⟨rel, hrel, hlen, hspec⟩ := evalRelLoop_spec qls query_label result df hr
  refine ⟨rel, ?_, hlen, ?_⟩
  · rw [evaluate_relevance, hq]
    exact hrel
  · intro i hi
    have hmem : result.getD i ⟨0⟩ ∈ result := by
      rw [List.getD_eq_getElem _ _ hi]
      exact List.getElem_mem hi
    obtain ⟨rls0, hrls0⟩ := Option.isSome_iff_exists.mp (hr _ hmem)
    constructor
    · rw [hspec i hi rls0 hrls0]
      exact relevanceOf_zero_or_one qls query_label rls0
    · intro rls hrls
      rw [hrls0] at hrls
      injection hrls with h
      rw [hspec i hi rls0 hrls0, ← h]
      exact relevanceOf_eq_one_iff qls query_label rls0

/-- C3 witness: query 1 (labels {a}) against result 2 (labels {a}) in default
mode gives the relevance sequence [1]. -/
theorem evaluate_relevance_spec_witness :
    ∃ rel, evaluate_relevance 1 [⟨2⟩] [⟨1, ['a']⟩, ⟨2, ['a']⟩] none = some rel ∧
      rel.length = ([⟨2⟩] : List Res).length ∧
      ∀ i, i < ([⟨2⟩] : List Res).length →
        (rel.getD i 0 = 0 ∨ rel.getD i 0 = 1) ∧
        ∀ rls, get_labels ((([⟨2⟩] : List Res).getD i ⟨0⟩).result_fname)
            [⟨1, ['a']⟩, ⟨2, ['a']⟩] = some rls →
          (rel.getD i 0 = 1 ↔ ∃ l ∈ [['a']], l ∈ rls) :=
  evaluate_relevance_spec 1 [⟨2⟩] [⟨1, ['a']⟩, ⟨2, ['a']⟩] none [['a']]
    (by decide) (by decide)

lemma labelPattern_false_of_single_token (short long : List Char)
    (hne : short ≠ long) (hcomma : ',' ∉ long) :
    labelPattern short long = false := by
  have h1 : (short ++ [',']).isPrefixOf long = false := by
    rw [Bool.eq_false_iff]
    intro h
    exact hcomma ((List.isPrefixOf_iff_prefix.mp h).subset (by simp))
  have h2 : listInfixOf ([','] ++ short ++ [',']) long = false := by
    rw [Bool.eq_false_iff]
    intro h
    rw [listInfixOf, List.any_eq_true] at h
    obtain ⟨t, ht, hp⟩ := h
    have hts : t <:+ long := (List.mem_tails _ _).mp ht
    have hinf : ([','] ++ short ++ [',']) <:+: long :=
      (List.isPrefixOf_iff_prefix.mp hp).isInfix.trans hts.isInfix
    exact hcomma (hinf.subset (by simp))
  have h3 : ([','] ++ short).isSuffixOf long = false := by
    rw [Bool.eq_false_iff]
    intro h
    exact hcomma ((List.isSuffixOf_iff_suffix.mp h).subset (by simp))
  have h4 : (long == short) = false := by
    rw [Bool.eq_false_iff]
    intro h
    exact hne (beq_iff_eq.mp h).symm
  rw [labelPattern, h1, h2, h3, h4]
  rfl

/-- C6: the matcher of `find_indices_containing_label` accepts a label only as a
whole comma-delimited token: when one label is a proper prefix or suffix of
another, an item tagged only with the longer label (a single comma-free token) is
not reported as containing the shorter one. -/
theorem find_indices_whole_token (short long : List Char) (fn : Int)
    (_hps : short <+: long ∨ short <:+ long) (hne : short ≠ long)
    (hcomma : ',' ∉ long) :
    find_indices_containing_label short [⟨fn, long⟩] = [false] := by
  rw [find_indices_containing_label, List.map_cons, List.map_nil,
    labelPattern_false_of_single_token short long hne hcomma]

/-- C6 witness: querying "car" does not match an item tagged only "cartoon". -/
theorem find_indices_whole_token_witness :
    find_indices_containing_label ['c', 'a', 'r']
      [⟨7, ['c', 'a', 'r', 't', 'o', 'o', 'n']⟩] = [false] :=
  find_indices_whole_token ['c', 'a', 'r'] ['c', 'a', 'r', 't', 'o', 'o', 'n'] 7
    (Or.inl (by decide)) (by decide) (by decide)

/-- C1 evidence: the filter `[x for x in r1s if x]` in `calculate_MR1` uses Python
truthiness, so a query whose first relevant result is at rank 0 is discarded
together with the no-match queries.  With a single query matching at rank 0 every
entry is dropped and the mean is an unguarded division by zero (no value);
adding a query matching at rank 1 gives mean 1 instead of the claimed mean 1/2
over both non-sentinel ranks {0, 1}. -/
theorem calculate_MR1_drops_rank_zero :
    R1 1 [⟨2⟩] [⟨1, ['a']⟩, ⟨2, ['a']⟩] = some (some 0) ∧
    calculate_MR1 [(1, [⟨2⟩])] [⟨1, ['a']⟩, ⟨2, ['a']⟩] = none ∧
    R1 3 [⟨4⟩, ⟨5⟩] [⟨1, ['a']⟩, ⟨2, ['a']⟩, ⟨3, ['b']⟩, ⟨4, ['c']⟩, ⟨5, ['b']⟩]
      = some (some 1) ∧
    calculate_MR1 [(1, [⟨2⟩]), (3, [⟨4⟩, ⟨5⟩])]
      [⟨1, ['a']⟩, ⟨2, ['a']⟩, ⟨3, ['b']⟩, ⟨4, ['c']⟩, ⟨5, ['b']⟩] = some 1 := by
  refine ⟨by decide, by decide, by decide, ?_⟩
  have h : r1Loop [(1, [⟨2⟩]), (3, [⟨4⟩, ⟨5⟩])]
      [⟨1, ['a']⟩, ⟨2, ['a']⟩, ⟨3, ['b']⟩, ⟨4, ['c']⟩, ⟨5, ['b']⟩]
      = some [some 0, some 1] := by decide
  have h2 : truthyRanks [some 0, some 1] = [1] := by decide
  unfold calculate_MR1
  rw [h]
  norm_num [h2]

/-- C2 evidence: `calculate_micro_map_at_k` never returns a value: its per-query
call `average_precision(relevance)` omits the required `n_relevant` argument, so
the first loop iteration fails, and on an empty results store the final mean is a
division by zero. -/
theorem calculate_micro_map_at_k_always_fails (results_dict : List (Int × List Res))
    (df : List Row) (k : Nat) :
    calculate_micro_map_at_k results_dict df k = none := by
  rcases results_dict with _ | ⟨⟨q, r⟩, rest⟩
  · rfl
  · cases h : evaluate_relevance q (r.take k) df none <;>
      simp [calculate_micro_map_at_k, microAPLoop, h, average_precision_missing_argument]

lemma apAux_append : ∀ (u v : List Int) (s : Int) (p : Nat),
    apAux (u ++ v) s p = apAux u s p + apAux v (s + u.sum) (p + u.length)
  | [], v, s, p => by simp [apAux]
  | r :: u, v, s, p => by
    rw [List.cons_append, apAux, apAux, apAux_append u v (s + r) (p + 1),
      List.sum_cons, List.length_cons]
    have h1 : s + r + u.sum = s + (r + u.sum) := by ring
    have h2 : p + 1 + u.length = p + (u.length + 1) := by omega
    rw [h1, h2]
    ring

lemma apTotal_concat (l : List Int) (x : Int) :
    apTotal (l ++ [x]) =
      apTotal l + (x : ℚ) * (((l.sum + x : Int) : ℚ) / ((l.length : ℚ) + 1)) := by
  rw [apTotal, apTotal, List.length_append, List.length_cons, List.length_nil,
    List.range_succ, List.map_append, List.sum_append]
  congr 1
  · apply congrArg
    apply List.map_congr_left
    intro k hk
    have hk' : k < l.length := List.mem_range.mp hk
    rw [List.getD_append _ _ _ _ hk', precisionVal, precisionVal,
      List.take_append_of_le_length (by omega)]
  · rw [List.map_cons, List.map_nil, List.sum_cons, List.sum_nil, add_zero,
      List.getD_append_right _ _ _ _ (le_refl _), Nat.sub_self, List.getD_cons_zero,
      precisionVal, List.take_of_length_le (by simp), List.sum_append, List.sum_cons,
      List.sum_nil, add_zero]

lemma apTotal_eq_apAux (l : List Int) : apTotal l = apAux l 0 0 := by
  induction l using List.reverseRecOn with
  | nil => simp [apTotal, apAux]
  | append_singleton l x ih =>
    rw [apTotal_concat, apAux_append, ih, apAux, apAux]
    push_cast
    ring

lemma apAux_shift_ge (Q : ℚ) (hQ : 0 < Q) :
    ∀ (b : List Int), (∀ x ∈ b, x = 0 ∨ x = 1) →
      ∀ (s : Int) (p : Nat), (p : ℚ) + b.length ≤ Q →
      apAux b s p + (b.sum : ℚ) / Q ≤ apAux b (s + 1) p
  | [], _, s, p, _ => by simp [apAux]
  | r :: rest, hb, s, p, hpQ => by
    have hrest : ∀ x ∈ rest, x = 0 ∨ x = 1 := fun x hx => hb x (List.mem_cons_of_mem r hx)
    have hpQ' : ((p + 1 : Nat) : ℚ) + rest.length ≤ Q := by
      push_cast
      push_cast [List.length_cons] at hpQ
      linarith
    rcases hb r (List.mem_cons_self r rest) with h | h
    · subst h
      simp only [apAux, List.sum_cons, add_zero, zero_add, Int.cast_zero, zero_mul,
        zero_div, zero_add]
      exact apAux_shift_ge Q hQ rest hrest s (p + 1) hpQ'
    · subst h
      have ih := apAux_shift_ge Q hQ rest hrest (s + 1) (p + 1) hpQ'
      simp only [apAux, List.sum_cons, Int.cast_add, Int.cast_one, one_mul]
      have hp1 : (0 : ℚ) < (p : ℚ) + 1 := by positivity
      have hle : (p : ℚ) + 1 ≤ Q := by
        push_cast [List.length_cons] at hpQ
        have : (0 : ℚ) ≤ (rest.length : ℚ) := by positivity
        linarith
      have h3 : 1 / Q ≤ 1 / ((p : ℚ) + 1) := one_div_le_one_div_of_le hp1 hle
      have e1 : ((s : ℚ) + 1 + 1) / ((p : ℚ) + 1)
          = ((s : ℚ) + 1) / ((p : ℚ) + 1) + 1 / ((p : ℚ) + 1) := by ring
      have e2 : (1 + (rest.sum : ℚ)) / Q = 1 / Q + (rest.sum : ℚ) / Q := by ring
      rw [e1, e2]
      linarith

lemma apAux_swap_le (b c : List Int) (hb : ∀ x ∈ b, x = 0 ∨ x = 1)
    (s : Int) (hs : 0 ≤ s) (p : Nat) :
    apAux (0 :: (b ++ 1 :: c)) s p ≤ apAux (1 :: (b ++ 0 :: c)) s p := by
  simp only [apAux, Int.cast_zero, zero_mul, zero_add, add_zero, Int.cast_one, one_mul,
    Int.cast_add]
  rw [apAux_append, apAux_append]
  simp only [apAux, Int.cast_zero, zero_mul, zero_add, add_zero, Int.cast_one, one_mul,
    Int.cast_add]
  have hcomm : s + 1 + b.sum = s + b.sum + 1 := by ring
  rw [hcomm]
  set Q : ℚ := ((p + 1 + b.length : Nat) : ℚ) + 1 with hQdef
  have hQ : 0 < Q := by
    rw [hQdef]
    positivity
  have hshift := apAux_shift_ge Q hQ b hb s (p + 1) (by rw [hQdef]; push_cast; linarith)
  have hsplit : ((s : ℚ) + (b.sum : ℚ) + 1) / Q = ((s : ℚ) + 1) / Q + (b.sum : ℚ) / Q := by
    ring
  have hp1 : (0 : ℚ) < (p : ℚ) + 1 := by positivity
  have hle : (p : ℚ) + 1 ≤ Q := by
    rw [hQdef]
    push_cast
    have : (0 : ℚ) ≤ (b.length : ℚ) := by positivity
    linarith
  have hs1 : (0 : ℚ) < (s : ℚ) + 1 := by
    have h0 : (0 : ℚ) ≤ (s : ℚ) := by exact_mod_cast hs
    linarith
  have hdiv : ((s : ℚ) + 1) / Q ≤ ((s : ℚ) + 1) / ((p : ℚ) + 1) :=
    (div_le_div_iff_of_pos_left hs1 hQ hp1).mpr hle
  rw [hsplit]
  linarith

lemma apTotal_swap_le (a b c : List Int)
    (ha : ∀ x ∈ a, x = 0 ∨ x = 1) (hb : ∀ x ∈ b, x = 0 ∨ x = 1) :
    apTotal (a ++ 0 :: (b ++ 1 :: c)) ≤ apTotal (a ++ 1 :: (b ++ 0 :: c)) := by
  rw [apTotal_eq_apAux, apTotal_eq_apAux, apAux_append, apAux_append]
  have hs : (0 : Int) ≤ 0 + a.sum := by
    have := binary_sum_nonneg ha
    omega
  have := apAux_swap_le b c hb (0 + a.sum) hs (0 + a.length)
  linarith

/-- C8: swapping a 0 at an earlier position with a 1 at a later position (moving
the relevant item earlier) never decreases `average_precision` when `n_relevant`
is the (swap-invariant) number of relevant items: both calls succeed and the
value for the promoted ranking is at least the original one. -/
theorem average_precision_swap_monotone (a b c : List Int)
    (ha : ∀ x ∈ a, x = 0 ∨ x = 1) (hb : ∀ x ∈ b, x = 0 ∨ x = 1)
    (hc : ∀ x ∈ c, x = 0 ∨ x = 1) :
    ∃ q q' : ℚ,
      average_precision (a ++ 0 :: (b ++ 1 :: c)) ((a ++ 0 :: (b ++ 1 :: c)).sum)
        = some q ∧
      average_precision (a ++ 1 :: (b ++ 0 :: c)) ((a ++ 1 :: (b ++ 0 :: c)).sum)
        = some q' ∧
      q ≤ q' := by
  have hbin1 : ∀ x ∈ a ++ 0 :: (b ++ 1 :: c), x = 0 ∨ x = 1 := by
    intro x hx
    simp only [List.mem_append, List.mem_cons] at hx
    rcases hx with h | h | h | h | h
    exacts [ha x h, Or.inl h, hb x h, Or.inr h, hc x h]
  have hbin2 : ∀ x ∈ a ++ 1 :: (b ++ 0 :: c), x = 0 ∨ x = 1 := by
    intro x hx
    simp only [List.mem_append, List.mem_cons] at hx
    rcases hx with h | h | h | h | h
    exacts [ha x h, Or.inr h, hb x h, Or.inl h, hc x h]
  have hN : 0 < (a ++ 0 :: (b ++ 1 :: c)).sum := by
    have h1 := binary_sum_nonneg ha
    have h2 := binary_sum_nonneg hb
    have h3 := binary_sum_nonneg hc
    simp only [List.sum_append, List.sum_cons]
    omega
  have hsum2 : (a ++ 1 :: (b ++ 0 :: c)).sum = (a ++ 0 :: (b ++ 1 :: c)).sum := by
    simp only [List.sum_append, List.sum_cons]
    ring
  have hQpos : (0 : ℚ) < (((a ++ 0 :: (b ++ 1 :: c)).sum : Int) : ℚ) := by
    exact_mod_cast hN
  refine ⟨apTotal (a ++ 0 :: (b ++ 1 :: c)) / (((a ++ 0 :: (b ++ 1 :: c)).sum : Int) : ℚ),
    apTotal (a ++ 1 :: (b ++ 0 :: c)) / (((a ++ 0 :: (b ++ 1 :: c)).sum : Int) : ℚ),
    ?_, ?_, ?_⟩
  · rw [average_precision, if_pos rfl, if_neg (by omega), if_pos hbin1]
  · rw [average_precision, if_pos rfl, if_neg (by omega), if_pos hbin2, hsum2]
  · exact (div_le_div_iff_of_pos_right hQpos).mpr (apTotal_swap_le a b c ha hb)

/-- C8 witness: promoting the relevant item of [0,1] to get [1,0] raises AP. -/
theorem average_precision_swap_monotone_witness :
    ∃ q q' : ℚ,
      average_precision [0, 1] (([0, 1] : List Int).sum) = some q ∧
      average_precision [1, 0] (([1, 0] : List Int).sum) = some q' ∧
      q ≤ q' :=
  average_precision_swap_monotone [] [] [] (by decide) (by decide) (by decide)

end Metrics
